import Mathlib

/-!
# Verification of rbxts-shapecast-hitbox

The repository ships `src/index.d.ts`, an interface-only TypeScript
declaration of the ShapecastHitbox library (segments, the Hitbox controller,
its callbacks and its public methods).  The implementation behind that
interface is not part of the repository, so the behavioural engine below is
modelled from the specification (each such definition carries a doc comment
starting with `Modelled from the spec:`); the declared API surface (method
return types, documented defaults) is embedded directly from `index.d.ts`.

Geometry is over exact rationals.  The engine's Euclidean vector magnitude
is an external primitive of the host engine (out of scope per the spec), so
the model is parameterised by a magnitude function `mag : V3 → ℚ` assumed
non-negative (`MagOk`); the taxicab norm `magTaxi` serves as a concrete
instance for witnesses, chosen so that the concrete runs below use only
axis-aligned unit displacements, on which the taxicab and Euclidean
magnitudes coincide.
-/

/-- A 3-D vector with exact rational coordinates. -/
structure V3 where
  x : ℚ
  y : ℚ
  z : ℚ
deriving DecidableEq, Repr

def V3.zero : V3 := ⟨0, 0, 0⟩

def V3.sub (a b : V3) : V3 := ⟨a.x - b.x, a.y - b.y, a.z - b.z⟩

def V3.smul (c : ℚ) (v : V3) : V3 := ⟨c * v.x, c * v.y, c * v.z⟩

/-- A valid magnitude function: non-negative (the host engine's Euclidean
`Vector3.Magnitude` satisfies this). -/
def MagOk (mag : V3 → ℚ) : Prop := ∀ v, 0 ≤ mag v

/-- Taxicab magnitude: a concrete `MagOk` instance used for closed runs. -/
def magTaxi (v : V3) : ℚ := |v.x| + |v.y| + |v.z|

/-- `RaycastResult`: the intersection reported by the cast provider; the hit
world object is identified by a numeric id (`RaycastResult.Instance` in the
source interface). -/
structure RaycastResult where
  instanceId : ℕ
  position : V3
deriving DecidableEq, Repr

/-- `CastType` from `index.d.ts`: `"Blockcast" | "Spherecast" | "Raycast"`. -/
inductive CastType where
  | Raycast
  | Blockcast
  | Spherecast
deriving DecidableEq, Repr

/-- `CastData` from `index.d.ts` (geometric fields beyond the shape tag do
not influence any claim and are abstracted to the shape selector and the
sphere radius). -/
structure CastData where
  castType : CastType := .Raycast
  radius : ℚ := 0
deriving DecidableEq, Repr

/-- `Segment` from `index.d.ts`: one tracked emission point.
`distance` is `Segment.Distance`, `position` is the optional
`Segment.Position` (undefined before the first update since activation),
`lastDirection` is `Segment.LastDirection`, `castResult` is the optional
`Segment.RaycastResult`. -/
structure Segment where
  distance : ℚ
  position : Option V3
  lastDirection : V3
  castResult : Option RaycastResult
  castData : CastData
deriving DecidableEq, Repr

/-- Modelled from the spec: a fresh segment as created by reconciliation
("newly present points gain a fresh Segment"), with zero travel, no prior
position, no prior direction and no cast result. -/
def Segment.fresh (cd : CastData) : Segment :=
  { distance := 0, position := none, lastDirection := V3.zero
    castResult := none, castData := cd }

/-- The cast provider's response to one query: `fail` models a provider
failure (e.g. the tracked part no longer exists), `miss` a successful query
with no intersection, `hit` a reported intersection. -/
inductive CastOutcome where
  | fail
  | miss
  | hit (r : RaycastResult)
deriving DecidableEq, Repr

/-- External data delivered to one segment on one tick: the tracked point's
current world position and the cast provider's response should a cast be
issued. -/
structure SegInput where
  curPos : V3
  cast : CastOutcome
deriving Repr

/-- One raw tick from the frame source: the time delta and the per-segment
external data (indexed by the segment's key). -/
structure TickInput where
  delta : ℚ
  segIn : ℕ → SegInput

/-- An observable callback invocation.  Callbacks are identified by numeric
ids; firing a callback is recorded as an event rather than executed. -/
inductive Event where
  | started (cb : ℕ)
  | update (cb : ℕ) (delta : ℚ)
  | hit (cb : ℕ) (result : RaycastResult) (segKey : ℕ)
  | stopped (cb : ℕ) (clear : Bool)
deriving DecidableEq, Repr

/-- The world-object id reported by a hit event, if the event is a hit. -/
def Event.hitObject : Event → Option ℕ
  | .hit _ r _ => some r.instanceId
  | _ => none

/-- The segment key of a hit event, if the event is a hit. -/
def Event.hitKey : Event → Option ℕ
  | .hit _ _ k => some k
  | _ => none

/-- Whether an event is an `onUpdate` invocation. -/
def Event.isUpdate : Event → Bool
  | .update _ _ => true
  | _ => false

/-- `Hitbox` controller state from `index.d.ts` §Hitbox plus the spec's
controller-internal state: the per-window hit-filter set (`hitSet`), the
resolution-throttle accumulator (`accTime`), the four callback lists, the
optional auto-stop deadline and the destroyed flag (tick subscription
released). -/
structure Hitbox where
  active : Bool
  destroyed : Bool
  resolution : ℚ
  filterPartsHit : Bool
  castData : CastData
  segments : List (ℕ × Segment)
  hitSet : List ℕ
  accTime : ℚ
  beforeStart : List ℕ
  onUpdate : List ℕ
  onHit : List ℕ
  onStopped : List ℕ
  timerHandle : Option ℚ

/-- Modelled from the spec (missing implementation of the constructor
`ShapecastHitbox.new`): a fresh hitbox is Inactive with no segments, no
recorded hits, empty callback lists, and `Resolution` at its documented
default of 60 (`index.d.ts` lines 196–200). -/
def ShapecastHitbox.new : Hitbox :=
  { active := false, destroyed := false, resolution := 60
    filterPartsHit := false, castData := {}
    segments := [], hitSet := [], accTime := 0
    beforeStart := [], onUpdate := [], onHit := [], onStopped := []
    timerHandle := none }

/-- Result of updating one segment on a casting pass: the new segment state,
the world-object id the provider reported before the hit filter was applied
(`rawHit`), and whether a cast was actually issued. -/
structure SegOut where
  seg : Segment
  rawHit : Option ℕ
  castIssued : Bool
deriving Repr

/-- The provider's reported intersection, with a failure handled as "no
intersection" (spec §7). -/
def rawOf : CastOutcome → Option RaycastResult
  | .fail => none
  | .miss => none
  | .hit r => some r

/-- The per-window hit filter (spec §4.2 step 6): when `filterOn` is set
and the intersected object is already in the hit set, the result is
discarded. -/
def applyFilter (filterOn : Bool) (hitSet : List ℕ) :
    Option RaycastResult → Option RaycastResult
  | some r => if filterOn ∧ r.instanceId ∈ hitSet then none else some r
  | none => none

/-- Modelled from the spec (missing implementation of `Segment._update`,
spec §4.2): per-pass segment update.  If `position` is undefined, record
the current position, clear `castResult` and issue no cast.  Otherwise
compute the displacement, update `lastDirection` (kept when stationary),
accumulate the displacement magnitude into `distance`, and — unless the
displacement is zero with no prior direction, in which case nothing is
swept — issue a cast; a provider failure is treated as no intersection,
and the result is discarded by `applyFilter` when `filterOn` is set and
the intersected object is already in the per-window hit set. -/
def segUpdate (mag : V3 → ℚ) (filterOn : Bool) (hitSet : List ℕ)
    (inp : SegInput) (s : Segment) : SegOut :=
  match s.position with
  | none =>
      ⟨{ s with position := some inp.curPos, castResult := none }, none, false⟩
  | some last =>
      let disp := inp.curPos.sub last
      let dir := if disp = V3.zero then s.lastDirection
                 else V3.smul (1 / mag disp) disp
      let dist := s.distance + mag disp
      if disp = V3.zero ∧ s.lastDirection = V3.zero then
        ⟨{ s with distance := dist, position := some inp.curPos
                  lastDirection := dir, castResult := none }, none, false⟩
      else
        ⟨{ s with distance := dist, position := some inp.curPos
                  lastDirection := dir
                  castResult := applyFilter filterOn hitSet (rawOf inp.cast) },
          (rawOf inp.cast).map RaycastResult.instanceId, true⟩

/-- Computable minimum of two rationals (equal to `min`, but written as a
conditional so that closed runs reduce inside the kernel). -/
def minQ (a b : ℚ) : ℚ := if a ≤ b then a else b

/-- Modelled from the spec (§4.3): whether this raw tick performs a casting
pass — the hitbox is live and the accumulated time reaches
`1 / min resolution currentFrameRate`, where the current frame rate is the
reciprocal of the tick delta. -/
def castingPass (h : Hitbox) (inp : TickInput) : Bool :=
  h.active && !h.destroyed &&
    decide (1 / minQ h.resolution (1 / inp.delta) ≤ h.accTime + inp.delta)

/-- The per-pass update of the whole segment registry: every segment is
updated from its own external input against the shared pre-pass hit set. -/
def segUpdates (mag : V3 → ℚ) (inp : TickInput) (h : Hitbox) : List (ℕ × SegOut) :=
  h.segments.map (fun p => (p.1, segUpdate mag h.filterPartsHit h.hitSet (inp.segIn p.1) p.2))

/-- The `onHit` invocations of a pass: for every segment whose `castResult`
is non-none, every `onHit` callback fires with (result, segment), in
segment-registration order. -/
def hitEventsOf (cbs : List ℕ) (l : List (ℕ × SegOut)) : List Event :=
  l.flatMap (fun p =>
    match p.2.seg.castResult with
    | some r => cbs.map (fun cb => Event.hit cb r p.1)
    | none => [])

/-- Modelled from the spec (missing implementation of the per-tick handler,
spec §4.3 and §5): one raw tick.  A destroyed or inactive hitbox is
dormant.  Otherwise `onUpdate` callbacks fire every raw tick with the
tick's delta; when the resolution throttle is satisfied a casting pass
additionally updates every segment, fires `onHit` for each segment whose
`castResult` is non-none (in segment order, `onUpdate` first), records
every intersected object into the per-window hit set regardless of
`FilterPartsHit`, and resets the throttle accumulator. -/
def tick (mag : V3 → ℚ) (inp : TickInput) (h : Hitbox) : Hitbox × List Event :=
  if h.destroyed || !h.active then (h, [])
  else
    let updEvents := h.onUpdate.map (fun cb => Event.update cb inp.delta)
    if castingPass h inp then
      let updated := segUpdates mag inp h
      ({ h with segments := updated.map (fun p => (p.1, p.2.seg))
                hitSet := h.hitSet ++ updated.filterMap (fun p => p.2.rawHit)
                accTime := 0 },
        updEvents ++ hitEventsOf h.onHit updated)
    else
      ({ h with accTime := h.accTime + inp.delta }, updEvents)

/-- Modelled from the spec (missing implementation of `Hitbox.HitStart`):
no-op if already Active; otherwise fires every `beforeStart` callback,
resets every segment's `Distance`/`Position`/`RaycastResult`, clears the
per-window hit set and the throttle accumulator, stores the optional
auto-stop timer and enters Active. -/
def HitStart (timer : Option ℚ) (h : Hitbox) : Hitbox × List Event :=
  if h.active then (h, [])
  else
    ({ h with active := true
              segments := h.segments.map (fun p =>
                (p.1, { p.2 with distance := 0, position := none
                                 castResult := none }))
              hitSet := [], accTime := 0, timerHandle := timer },
      h.beforeStart.map Event.started)

/-- Modelled from the spec (missing implementation of `Hitbox.HitStop`):
no-op if already Inactive; otherwise cancels the auto-stop timer, enters
Inactive, fires every `onStopped` callback with the `clearCallbacks`
boolean, and empties all four callback lists only when some callback
invocation requests clearing (`requestsClear` models each callback's
choice), after all of them have run. -/
def HitStop (requestsClear : ℕ → Bool) (h : Hitbox) : Hitbox × List Event :=
  if !h.active then (h, [])
  else
    let doClear := h.onStopped.any requestsClear
    ({ h with active := false, timerHandle := none
              beforeStart := if doClear then [] else h.beforeStart
              onUpdate := if doClear then [] else h.onUpdate
              onHit := if doClear then [] else h.onHit
              onStopped := if doClear then [] else h.onStopped },
      h.onStopped.map (fun cb => Event.stopped cb doClear))

/-- Modelled from the spec (missing implementation of `Hitbox.Destroy`):
forcibly stops without firing `onStopped`, releases the tick subscription
permanently, clears all segments and all four callback lists. -/
def Destroy (h : Hitbox) : Hitbox × List Event :=
  ({ h with active := false, destroyed := true, timerHandle := none
            segments := [], beforeStart := [], onUpdate := []
            onHit := [], onStopped := [] },
    [])

/-- Run a list of raw ticks, collecting each tick's events. -/
def runTicks (mag : V3 → ℚ) (h : Hitbox) : List TickInput → Hitbox × List (List Event)
  | [] => (h, [])
  | t :: ts =>
      let step := tick mag t h
      let rest := runTicks mag step.1 ts
      (rest.1, step.2 :: rest.2)

/-- Total path length of a position trace: the sum of the magnitudes of
consecutive displacements, starting from an optional prior position (a
`none` start contributes nothing for the first point). -/
def pathDistance (mag : V3 → ℚ) : Option V3 → List V3 → ℚ
  | _, [] => 0
  | none, p :: ps => pathDistance mag (some p) ps
  | some q, p :: ps => mag (p.sub q) + pathDistance mag (some p) ps

/-- The positions a segment's tracked point is observed at on casting-pass
ticks: replays only the resolution throttle over the tick list and keeps
the segment's current position exactly on pass ticks. -/
def passPositions (k : ℕ) (res : ℚ) (acc : ℚ) : List TickInput → List V3
  | [] => []
  | t :: ts =>
      if 1 / minQ res (1 / t.delta) ≤ acc + t.delta
      then (t.segIn k).curPos :: passPositions k res 0 ts
      else passPositions k res (acc + t.delta) ts

/-- The number of casting passes a run of raw ticks performs. -/
def passesInRun (mag : V3 → ℚ) (h : Hitbox) : List TickInput → ℕ
  | [] => 0
  | t :: ts =>
      (if castingPass h t then 1 else 0) + passesInRun mag (tick mag t h).1 ts

/-- A one-segment demonstration hitbox for concrete runs: Active, one fresh
segment keyed 0, one `onHit` callback, the default resolution of 60. -/
def demoHitbox (flag : Bool) : Hitbox :=
  { ShapecastHitbox.new with
      active := true
      filterPartsHit := flag
      segments := [(0, Segment.fresh {})]
      onHit := [1] }

/-- A demonstration tick at 60 Hz: the tracked point sits at `p` and the
provider answers `c`. -/
def demoTick (p : V3) (c : CastOutcome) : TickInput :=
  ⟨1/60, fun _ => ⟨p, c⟩⟩

/-- The public methods declared on the `Hitbox` interface in
`src/index.d.ts`. -/
inductive Method where
  | GetAllSegments
  | GetSegment
  | AddSegment
  | RemoveSegment
  | Reconcile
  | HitStart
  | HitStop
  | Destroy
  | SetResolution
  | SetCastData
  | BeforeStart
  | OnUpdate
  | OnHit
  | OnStopped
deriving DecidableEq, Repr

/-- The possible declared return types of those methods. -/
inductive RetTy where
  | hitbox
  | segment
  | segmentMap
  | void
deriving DecidableEq, Repr

/-- The return type each method is declared with in `src/index.d.ts`
(lines 221–309): `GetAllSegments(): { [key: string]: Segment }`,
`GetSegment(...): Segment`, `AddSegment(...): Segment`,
`RemoveSegment(...): Hitbox`, `Reconcile(): void`, `HitStart(...): Hitbox`,
`HitStop(): Hitbox`, `Destroy(): void`, `SetResolution(...): Hitbox`,
`SetCastData(...): Hitbox`, `BeforeStart(...): Hitbox`,
`OnUpdate(...): Hitbox`, `OnHit(...): Hitbox`, `OnStopped(...): Hitbox`. -/
def returnType : Method → RetTy
  | .GetAllSegments => .segmentMap
  | .GetSegment => .segment
  | .AddSegment => .segment
  | .RemoveSegment => .hitbox
  | .Reconcile => .void
  | .HitStart => .hitbox
  | .HitStop => .hitbox
  | .Destroy => .void
  | .SetResolution => .hitbox
  | .SetCastData => .hitbox
  | .BeforeStart => .hitbox
  | .OnUpdate => .hitbox
  | .OnHit => .hitbox
  | .OnStopped => .hitbox

theorem lookup_map_snd {β γ : Type} (l : List (ℕ × β)) (f : ℕ → β → γ) (a : ℕ) :
    (l.map (fun p => (p.1, f p.1 p.2))).lookup a = (l.lookup a).map (f a) := by
  induction l with
  | nil => rfl
  | cons p l ih =>
      by_cases hpa : a = p.1
      · simp [List.lookup, hpa]
      · have : (a == p.1) = false := by simpa using hpa
        simp [List.lookup, this, ih]

theorem tick_dormant (mag : V3 → ℚ) (inp : TickInput) (h : Hitbox)
    (hd : (h.destroyed || !h.active) = true) : tick mag inp h = (h, []) := by
  simp [tick, hd]

theorem tick_pass (mag : V3 → ℚ) (inp : TickInput) (h : Hitbox)
    (hd : (h.destroyed || !h.active) = false) (hp : castingPass h inp = true) :
    tick mag inp h =
      ({ h with segments := (segUpdates mag inp h).map (fun p => (p.1, p.2.seg))
                hitSet := h.hitSet ++ (segUpdates mag inp h).filterMap (fun p => p.2.rawHit)
                accTime := 0 },
        h.onUpdate.map (fun cb => Event.update cb inp.delta)
          ++ hitEventsOf h.onHit (segUpdates mag inp h)) := by
  simp [tick, hd, hp]

theorem tick_nopass (mag : V3 → ℚ) (inp : TickInput) (h : Hitbox)
    (hd : (h.destroyed || !h.active) = false) (hp : castingPass h inp = false) :
    tick mag inp h =
      ({ h with accTime := h.accTime + inp.delta },
        h.onUpdate.map (fun cb => Event.update cb inp.delta)) := by
  simp [tick, hd, hp]

/-- C10: a newly constructed Hitbox has `Resolution = 60` by default, the
casts-per-second ceiling the throttle uses before any `SetResolution`
call. -/
theorem new_hitbox_default_resolution : ShapecastHitbox.new.resolution = 60 := rfl

/-- C6 counterexample: the claim "every public mutator except Destroy
returns the Hitbox handle, in particular Reconcile" is false —
`src/index.d.ts` declares `Reconcile(): void`. -/
theorem reconcile_returns_void : returnType Method.Reconcile ≠ RetTy.hitbox := by
  decide

/-- C6 (amended): of the listed methods, RemoveSegment, HitStart, HitStop,
SetResolution, SetCastData, BeforeStart, OnUpdate, OnHit and OnStopped are
declared to return the Hitbox; Reconcile and Destroy are declared `void`,
and AddSegment returns the newly created Segment. -/
theorem chainable_mutators :
    returnType Method.RemoveSegment = RetTy.hitbox ∧
    returnType Method.HitStart = RetTy.hitbox ∧
    returnType Method.HitStop = RetTy.hitbox ∧
    returnType Method.SetResolution = RetTy.hitbox ∧
    returnType Method.SetCastData = RetTy.hitbox ∧
    returnType Method.BeforeStart = RetTy.hitbox ∧
    returnType Method.OnUpdate = RetTy.hitbox ∧
    returnType Method.OnHit = RetTy.hitbox ∧
    returnType Method.OnStopped = RetTy.hitbox ∧
    returnType Method.Reconcile = RetTy.void ∧
    returnType Method.AddSegment = RetTy.segment ∧
    returnType Method.Destroy = RetTy.void := by
  decide

/-- C7: `HitStart` on an already Active hitbox is a no-op (same state, no
callbacks fired), and `HitStop` on an already Inactive hitbox is a no-op. -/
theorem hitStart_hitStop_idempotent :
    (∀ (h : Hitbox) (t : Option ℚ), h.active = true → HitStart t h = (h, [])) ∧
    (∀ (h : Hitbox) (rc : ℕ → Bool), h.active = false → HitStop rc h = (h, [])) := by
  constructor
  · intro h t hA
    simp [HitStart, hA]
  · intro h rc hA
    simp [HitStop, hA]

/-- Witness for C7 at a concrete active hitbox and a concrete inactive
hitbox. -/
theorem hitStart_hitStop_idempotent_witness :
    HitStart (some 3) { ShapecastHitbox.new with active := true } =
      ({ ShapecastHitbox.new with active := true }, []) ∧
    HitStop (fun _ => true) ShapecastHitbox.new = (ShapecastHitbox.new, []) :=
  ⟨hitStart_hitStop_idempotent.1 _ (some 3) rfl,
   hitStart_hitStop_idempotent.2 _ (fun _ => true) rfl⟩

/-- C8: `Destroy` fires no callbacks (in particular no `onStopped`), marks
the tick subscription permanently released, clears all segments and all
four callback lists — and a destroyed hitbox never reacts to a tick again;
`HitStop` on an Active hitbox fires every `onStopped` callback with the
`clearCallbacks` boolean, and empties the four callback lists exactly when
some callback invocation requests clearing (all `onStopped` callbacks
having run). -/
theorem destroy_vs_hitStop :
    (∀ h : Hitbox,
      (Destroy h).2 = [] ∧
      (Destroy h).1.destroyed = true ∧
      (Destroy h).1.active = false ∧
      (Destroy h).1.segments = [] ∧
      (Destroy h).1.beforeStart = [] ∧
      (Destroy h).1.onUpdate = [] ∧
      (Destroy h).1.onHit = [] ∧
      (Destroy h).1.onStopped = []) ∧
    (∀ (mag : V3 → ℚ) (inp : TickInput) (h : Hitbox),
      h.destroyed = true → tick mag inp h = (h, [])) ∧
    (∀ (h : Hitbox) (rc : ℕ → Bool), h.active = true →
      (HitStop rc h).2 =
        h.onStopped.map (fun cb => Event.stopped cb (h.onStopped.any rc)) ∧
      ((HitStop rc h).1.beforeStart, (HitStop rc h).1.onUpdate,
       (HitStop rc h).1.onHit, (HitStop rc h).1.onStopped) =
        (if h.onStopped.any rc then ([], [], [], [])
         else (h.beforeStart, h.onUpdate, h.onHit, h.onStopped))) := by
  refine ⟨fun h => ?_, fun mag inp h hD => ?_, fun h rc hA => ?_⟩
  · simp [Destroy]
  · simp [tick, hD]
  · constructor
    · simp [HitStop, hA]
    · by_cases hc : h.onStopped.any rc = true <;> simp [HitStop, hA, hc]

/-- Witness for C8's hypothesised conjuncts: a destroyed hitbox ignores a
tick, and a concrete `HitStop` fires its one `onStopped` callback with
`clearCallbacks = true` and empties the lists. -/
theorem destroy_vs_hitStop_witness :
    tick magTaxi ⟨1, fun _ => ⟨V3.zero, .miss⟩⟩
        { ShapecastHitbox.new with destroyed := true } =
      ({ ShapecastHitbox.new with destroyed := true }, []) ∧
    (HitStop (fun _ => true)
        { ShapecastHitbox.new with active := true, onStopped := [7] }).2 =
      [Event.stopped 7 true] :=
  ⟨destroy_vs_hitStop.2.1 magTaxi _ _ rfl,
   (destroy_vs_hitStop.2.2 { ShapecastHitbox.new with active := true, onStopped := [7] }
      (fun _ => true) rfl).1⟩

@[simp] theorem Event.isUpdate_update (cb : ℕ) (d : ℚ) :
    (Event.update cb d).isUpdate = true := rfl

theorem filter_isUpdate_map_update (l : List ℕ) (d : ℚ) :
    (l.map (fun cb => Event.update cb d)).filter Event.isUpdate
      = l.map (fun cb => Event.update cb d) := by
  refine List.filter_eq_self.mpr ?_
  intro e he
  obtain ⟨cb, -, rfl⟩ := List.mem_map.mp he
  rfl

theorem filter_isUpdate_hitEvents (l : List (ℕ × SegOut)) (cbs : List ℕ) :
    (l.flatMap (fun p =>
        match p.2.seg.castResult with
        | some r => cbs.map (fun cb => Event.hit cb r p.1)
        | none => [])).filter Event.isUpdate = [] := by
  refine List.filter_eq_nil_iff.mpr ?_
  intro e he
  obtain ⟨p, -, hp⟩ := List.mem_flatMap.mp he
  rcases hres : p.2.seg.castResult with - | r <;> rw [hres] at hp
  · cases hp
  · obtain ⟨cb, -, rfl⟩ := List.mem_map.mp hp
    simp [Event.isUpdate]

/-- C5: while Active (and not destroyed), every registered `onUpdate`
callback fires on every raw tick with that tick's delta — the update events
of a tick are exactly the registered callbacks in order, whether or not the
resolution throttle lets the casting pass run. -/
theorem onUpdate_every_tick (mag : V3 → ℚ) (inp : TickInput) (h : Hitbox)
    (hA : h.active = true) (hD : h.destroyed = false) :
    ((tick mag inp h).2).filter Event.isUpdate
      = h.onUpdate.map (fun cb => Event.update cb inp.delta) := by
  have hd : (h.destroyed || !h.active) = false := by rw [hA, hD]; rfl
  by_cases hp : castingPass h inp = true
  · rw [tick_pass mag inp h hd hp]
    show ((_ ++ hitEventsOf h.onHit (segUpdates mag inp h)).filter Event.isUpdate) = _
    unfold hitEventsOf
    rw [List.filter_append, filter_isUpdate_map_update, filter_isUpdate_hitEvents,
      List.append_nil]
  · have hp0 : castingPass h inp = false := by simpa using hp
    rw [tick_nopass mag inp h hd hp0]
    exact filter_isUpdate_map_update _ _

/-- Witness for C5: a concrete active hitbox with two `onUpdate` callbacks
on a throttled tick (resolution 30 at a 60 Hz delta, accumulator zero: the
casting pass is skipped) still fires both callbacks with the delta. -/
theorem onUpdate_every_tick_witness :
    ((tick magTaxi ⟨1/60, fun _ => ⟨V3.zero, .miss⟩⟩
        { ShapecastHitbox.new with
            active := true
            resolution := 30
            onUpdate := [4, 9] }).2).filter Event.isUpdate
      = [Event.update 4 (1/60), Event.update 9 (1/60)] :=
  onUpdate_every_tick magTaxi _ _ rfl rfl

theorem nodup_keys_val_eq {β : Type} {l : List (ℕ × β)} {k : ℕ} {a b : β}
    (hnd : (l.map Prod.fst).Nodup) (ha : (k, a) ∈ l) (hb : (k, b) ∈ l) :
    a = b := by
  induction l with
  | nil => cases ha
  | cons p l ih =>
      obtain ⟨pk, pv⟩ := p
      rw [List.map_cons, List.nodup_cons] at hnd
      rcases List.mem_cons.mp ha with ha1 | ha1 <;>
        rcases List.mem_cons.mp hb with hb1 | hb1
      · injection ha1 with hk1 hv1
        injection hb1 with hk2 hv2
        rw [hv1, hv2]
      · exfalso
        apply hnd.1
        injection ha1 with hk1 hv1
        rw [← hk1]
        have hm := List.mem_map_of_mem Prod.fst hb1
        exact hm
      · exfalso
        apply hnd.1
        injection hb1 with hk2 hv2
        rw [← hk2]
        have hm := List.mem_map_of_mem Prod.fst ha1
        exact hm
      · exact ih hnd.2 ha1 hb1

theorem segUpdate_position_none (mag : V3 → ℚ) (fo : Bool) (hs : List ℕ)
    (inp : SegInput) (s : Segment) (hpos : s.position = none) :
    segUpdate mag fo hs inp s =
      ⟨{ s with position := some inp.curPos, castResult := none }, none, false⟩ := by
  simp [segUpdate, hpos]

/-- C4: a segment whose `Position` is undefined at the start of a casting
pass has its `Position` set to the current position and its `RaycastResult`
cleared, no cast is issued for it, and no `onHit` fires for that segment on
that tick. -/
theorem no_hit_without_prior_position :
    (∀ (mag : V3 → ℚ) (fo : Bool) (hs : List ℕ) (inp : SegInput) (s : Segment),
       s.position = none →
       segUpdate mag fo hs inp s =
         ⟨{ s with position := some inp.curPos, castResult := none }, none, false⟩) ∧
    (∀ (mag : V3 → ℚ) (inp : TickInput) (h : Hitbox) (k : ℕ) (s : Segment),
       (h.segments.map Prod.fst).Nodup → (k, s) ∈ h.segments → s.position = none →
       ∀ (cb : ℕ) (r : RaycastResult), Event.hit cb r k ∉ (tick mag inp h).2) := by
  constructor
  · intro mag fo hs inp s hpos
    exact segUpdate_position_none mag fo hs inp s hpos
  · intro mag inp h k s hnd hmem hpos cb r hin
    by_cases hlive : (h.destroyed || !h.active) = true
    · rw [tick_dormant mag inp h hlive] at hin
      cases hin
    · have hd : (h.destroyed || !h.active) = false := by simpa using hlive
      have hupd : Event.hit cb r k ∉ h.onUpdate.map (fun c => Event.update c inp.delta) := by
        intro hmem2
        obtain ⟨c, -, hc⟩ := List.mem_map.mp hmem2
        cases hc
      by_cases hp : castingPass h inp = true
      · rw [tick_pass mag inp h hd hp] at hin
        unfold hitEventsOf segUpdates at hin
        rcases List.mem_append.mp hin with hin1 | hin1
        · exact hupd hin1
        · obtain ⟨p, hpmem, hpev⟩ := List.mem_flatMap.mp hin1
          obtain ⟨q, hqmem, hq⟩ := List.mem_map.mp hpmem
          rcases hres : (p.2).seg.castResult with - | r' <;> rw [hres] at hpev
          · cases hpev
          · obtain ⟨c, -, hc⟩ := List.mem_map.mp hpev
            have hk : p.1 = k := by
              injection hc with h1 h2 h3
            have hq1 : q.1 = k := by
              rw [← hk, ← hq]
            have hqs : q.2 = s := by
              refine nodup_keys_val_eq hnd ?_ hmem
              rw [← hq1]
              exact hqmem
            have : (p.2).seg.castResult = none := by
              rw [← hq]
              show (segUpdate mag h.filterPartsHit h.hitSet (inp.segIn q.1) q.2).seg.castResult = none
              rw [hqs, segUpdate_position_none mag h.filterPartsHit h.hitSet
                (inp.segIn q.1) s hpos]
            rw [this] at hres
            cases hres
      · have hp0 : castingPass h inp = false := by simpa using hp
        rw [tick_nopass mag inp h hd hp0] at hin
        exact hupd hin

/-- Witness for C4: a fresh segment (no prior position) on a casting pass,
with the provider standing ready to report a hit, still records no cast
result and triggers no `onHit` event. -/
theorem no_hit_without_prior_position_witness :
    segUpdate magTaxi false [] ⟨⟨1, 0, 0⟩, .hit ⟨5, V3.zero⟩⟩ (Segment.fresh {})
      = ⟨{ Segment.fresh {} with position := some ⟨1, 0, 0⟩, castResult := none },
          none, false⟩ ∧
    Event.hit 3 ⟨5, V3.zero⟩ 0 ∉
      (tick magTaxi ⟨1/60, fun _ => ⟨⟨1, 0, 0⟩, .hit ⟨5, V3.zero⟩⟩⟩
        { ShapecastHitbox.new with
            active := true
            segments := [(0, Segment.fresh {})]
            onHit := [3] }).2 :=
  ⟨no_hit_without_prior_position.1 magTaxi false [] _ _ rfl,
   no_hit_without_prior_position.2 magTaxi _ _ 0 (Segment.fresh {})
     (by decide) (by decide) rfl 3 ⟨5, V3.zero⟩⟩

theorem lookup_tickSegs (mag : V3 → ℚ) (fo : Bool) (hs : List ℕ) (inp : TickInput)
    (l : List (ℕ × Segment)) (j : ℕ) :
    ((l.map (fun p => (p.1, segUpdate mag fo hs (inp.segIn p.1) p.2))).map
        (fun p => (p.1, p.2.seg))).lookup j
      = (l.lookup j).map (fun s => (segUpdate mag fo hs (inp.segIn j) s).seg) := by
  induction l with
  | nil => rfl
  | cons p l ih =>
      by_cases hpj : j = p.1
      · subst hpj
        simp [List.lookup]
      · have hne : (j == p.1) = false := by simpa using hpj
        simp only [List.map_cons, List.lookup, hne]
        exact ih

theorem filter_hitKey_updEvents (cbs : List ℕ) (d : ℚ) (j : ℕ) :
    (cbs.map (fun cb => Event.update cb d)).filter (fun e => e.hitKey == some j)
      = [] := by
  refine List.filter_eq_nil_iff.mpr ?_
  intro e he
  obtain ⟨cb, -, rfl⟩ := List.mem_map.mp he
  simp [Event.hitKey]

theorem filter_hitKey_hitEvents (mag : V3 → ℚ) (fo : Bool) (hs : List ℕ)
    (cbs : List ℕ) (inp inp' : TickInput) (j : ℕ) (hfg : inp.segIn j = inp'.segIn j)
    (l : List (ℕ × Segment)) :
    ((l.map (fun p => (p.1, segUpdate mag fo hs (inp.segIn p.1) p.2))).flatMap
        (fun p =>
          match p.2.seg.castResult with
          | some r => cbs.map (fun cb => Event.hit cb r p.1)
          | none => [])).filter (fun e => e.hitKey == some j)
      = ((l.map (fun p => (p.1, segUpdate mag fo hs (inp'.segIn p.1) p.2))).flatMap
        (fun p =>
          match p.2.seg.castResult with
          | some r => cbs.map (fun cb => Event.hit cb r p.1)
          | none => [])).filter (fun e => e.hitKey == some j) := by
  induction l with
  | nil => rfl
  | cons p l ih =>
      simp only [List.map_cons, List.flatMap_cons, List.filter_append]
      rw [ih]
      congr 1
      by_cases hpj : p.1 = j
      · rw [hpj, hfg]
      · have hnil : ∀ (i2 : SegInput),
            (List.filter (fun e => e.hitKey == some j)
              (match (segUpdate mag fo hs i2 p.2).seg.castResult with
               | some r => cbs.map (fun cb => Event.hit cb r p.1)
               | none => [])) = [] := by
          intro i2
          cases hres : (segUpdate mag fo hs i2 p.2).seg.castResult with
          | none => rfl
          | some r =>
              refine List.filter_eq_nil_iff.mpr ?_
              intro e he
              obtain ⟨cb, -, rfl⟩ := List.mem_map.mp he
              simp [Event.hitKey, hpj]
        rw [hnil, hnil]

/-- C9: a cast-provider failure for a segment yields `castResult = none`
(and no recorded hit) for that segment on that tick, and does not disturb
any other segment: a tick's effect on segment `j`'s state and on segment
`j`'s hit events depends only on segment `j`'s own external input (the
model's tick is total, so the pass always completes). -/
theorem provider_failure_isolated :
    (∀ (mag : V3 → ℚ) (fo : Bool) (hs : List ℕ) (inp : SegInput) (s : Segment),
       inp.cast = .fail →
       (segUpdate mag fo hs inp s).seg.castResult = none ∧
       (segUpdate mag fo hs inp s).rawHit = none) ∧
    (∀ (mag : V3 → ℚ) (h : Hitbox) (inp inp' : TickInput) (j : ℕ),
       inp.delta = inp'.delta → inp.segIn j = inp'.segIn j →
       (tick mag inp h).1.segments.lookup j = (tick mag inp' h).1.segments.lookup j ∧
       (tick mag inp h).2.filter (fun e => e.hitKey == some j)
         = (tick mag inp' h).2.filter (fun e => e.hitKey == some j)) := by
  constructor
  · intro mag fo hs inp s hc
    cases hpos : s.position with
    | none =>
        rw [segUpdate_position_none mag fo hs inp s hpos]
        exact ⟨rfl, rfl⟩
    | some last =>
        unfold segUpdate
        rw [hpos]
        simp only [hc]
        split
        · exact ⟨rfl, rfl⟩
        · exact ⟨rfl, rfl⟩
  · intro mag h inp inp' j hd hsj
    have hcp : castingPass h inp' = castingPass h inp := by
      unfold castingPass
      rw [hd]
    by_cases hlive : (h.destroyed || !h.active) = true
    · rw [tick_dormant mag inp h hlive, tick_dormant mag inp' h hlive]
      exact ⟨rfl, rfl⟩
    · have hd0 : (h.destroyed || !h.active) = false := by simpa using hlive
      by_cases hp : castingPass h inp = true
      · rw [tick_pass mag inp h hd0 hp, tick_pass mag inp' h hd0 (hcp.trans hp)]
        constructor
        · show ((segUpdates mag inp h).map (fun p => (p.1, p.2.seg))).lookup j
            = ((segUpdates mag inp' h).map (fun p => (p.1, p.2.seg))).lookup j
          unfold segUpdates
          rw [lookup_tickSegs, lookup_tickSegs, hsj]
        · show ((h.onUpdate.map (fun cb => Event.update cb inp.delta)
              ++ hitEventsOf h.onHit (segUpdates mag inp h)).filter
                (fun e => e.hitKey == some j))
            = ((h.onUpdate.map (fun cb => Event.update cb inp'.delta)
              ++ hitEventsOf h.onHit (segUpdates mag inp' h)).filter
                (fun e => e.hitKey == some j))
          unfold hitEventsOf segUpdates
          rw [List.filter_append, List.filter_append,
            filter_hitKey_updEvents, filter_hitKey_updEvents,
            filter_hitKey_hitEvents mag h.filterPartsHit h.hitSet h.onHit inp inp' j hsj]
      · have hp0 : castingPass h inp = false := by simpa using hp
        rw [tick_nopass mag inp h hd0 hp0, tick_nopass mag inp' h hd0 (hcp.trans hp0)]
        constructor
        · rfl
        · rw [hd]

/-- Witness for C9: a provider failure on segment 0 leaves its cast result
empty, and segment 1's post-tick state and hit events are identical whether
segment 0's provider failed or reported a clean miss. -/
theorem provider_failure_isolated_witness :
    ((segUpdate magTaxi false [] ⟨⟨1, 0, 0⟩, .fail⟩
        { Segment.fresh {} with position := some V3.zero }).seg.castResult = none ∧
     (segUpdate magTaxi false [] ⟨⟨1, 0, 0⟩, .fail⟩
        { Segment.fresh {} with position := some V3.zero }).rawHit = none) ∧
    ((tick magTaxi
        ⟨1/60, fun k => if k = 0 then ⟨⟨1, 0, 0⟩, .fail⟩
                        else ⟨⟨0, 1, 0⟩, .hit ⟨8, V3.zero⟩⟩⟩
        { ShapecastHitbox.new with
            active := true
            segments := [(0, { Segment.fresh {} with position := some V3.zero }),
                         (1, { Segment.fresh {} with position := some V3.zero })]
            onHit := [2] }).1.segments.lookup 1
      = (tick magTaxi
        ⟨1/60, fun k => if k = 0 then ⟨⟨1, 0, 0⟩, .miss⟩
                        else ⟨⟨0, 1, 0⟩, .hit ⟨8, V3.zero⟩⟩⟩
        { ShapecastHitbox.new with
            active := true
            segments := [(0, { Segment.fresh {} with position := some V3.zero }),
                         (1, { Segment.fresh {} with position := some V3.zero })]
            onHit := [2] }).1.segments.lookup 1) :=
  ⟨provider_failure_isolated.1 magTaxi false [] _ _ rfl,
   (provider_failure_isolated.2 magTaxi _ _ _ 1 rfl rfl).1⟩

theorem segUpdate_some_cast (mag : V3 → ℚ) (fo : Bool) (hs : List ℕ)
    (inp : SegInput) (s : Segment) (last : V3) (hpos : s.position = some last)
    (hnz : ¬(inp.curPos.sub last = V3.zero ∧ s.lastDirection = V3.zero)) :
    segUpdate mag fo hs inp s =
      ⟨{ s with distance := s.distance + mag (inp.curPos.sub last)
                position := some inp.curPos
                lastDirection :=
                  if inp.curPos.sub last = V3.zero then s.lastDirection
                  else V3.smul (1 / mag (inp.curPos.sub last)) (inp.curPos.sub last)
                castResult := applyFilter fo hs (rawOf inp.cast) },
        (rawOf inp.cast).map RaycastResult.instanceId, true⟩ := by
  unfold segUpdate
  rw [hpos]
  simp [hnz]

theorem applyFilter_eq_some (fo : Bool) (hs : List ℕ) (o : Option RaycastResult)
    (r : RaycastResult) (h : applyFilter fo hs o = some r) :
    o = some r ∧ ¬(fo = true ∧ r.instanceId ∈ hs) := by
  cases o with
  | none => cases h
  | some r0 =>
      have hred : applyFilter fo hs (some r0)
          = if fo = true ∧ r0.instanceId ∈ hs then none else some r0 := rfl
      rw [hred] at h
      by_cases hc : fo = true ∧ r0.instanceId ∈ hs
      · rw [if_pos hc] at h
        cases h
      · rw [if_neg hc] at h
        injection h with h1
        subst h1
        exact ⟨rfl, hc⟩

theorem segUpdate_castResult_some (mag : V3 → ℚ) (fo : Bool) (hs : List ℕ)
    (inp : SegInput) (s : Segment) (r : RaycastResult)
    (h : (segUpdate mag fo hs inp s).seg.castResult = some r) :
    (segUpdate mag fo hs inp s).rawHit = some r.instanceId ∧
    (fo = true → r.instanceId ∉ hs) := by
  cases hpos : s.position with
  | none =>
      rw [segUpdate_position_none mag fo hs inp s hpos] at h
      cases h
  | some last =>
      by_cases hz : inp.curPos.sub last = V3.zero ∧ s.lastDirection = V3.zero
      · have : segUpdate mag fo hs inp s =
            ⟨{ s with distance := s.distance + mag (inp.curPos.sub last)
                      position := some inp.curPos
                      lastDirection := if inp.curPos.sub last = V3.zero
                                       then s.lastDirection
                                       else V3.smul (1 / mag (inp.curPos.sub last))
                                              (inp.curPos.sub last)
                      castResult := none }, none, false⟩ := by
          unfold segUpdate
          rw [hpos]
          simp [hz]
        rw [this] at h
        cases h
      · rw [segUpdate_some_cast mag fo hs inp s last hpos hz] at h ⊢
        have hinv := applyFilter_eq_some fo hs (rawOf inp.cast) r h
        constructor
        · show (rawOf inp.cast).map RaycastResult.instanceId = some r.instanceId
          rw [hinv.1]
          rfl
        · intro hfo hmem
          exact hinv.2 ⟨hfo, hmem⟩

theorem segUpdate_rawHit_flag_indep (mag : V3 → ℚ) (fo fo' : Bool) (hs : List ℕ)
    (inp : SegInput) (s : Segment) :
    (segUpdate mag fo hs inp s).rawHit = (segUpdate mag fo' hs inp s).rawHit := by
  cases hpos : s.position with
  | none =>
      rw [segUpdate_position_none mag fo hs inp s hpos,
        segUpdate_position_none mag fo' hs inp s hpos]
  | some last =>
      by_cases hz : inp.curPos.sub last = V3.zero ∧ s.lastDirection = V3.zero
      · unfold segUpdate
        rw [hpos]
        simp [hz]
      · rw [segUpdate_some_cast mag fo hs inp s last hpos hz,
          segUpdate_some_cast mag fo' hs inp s last hpos hz]

theorem mem_hitEventsOf {cbs : List ℕ} {l : List (ℕ × SegOut)} {cb : ℕ}
    {r : RaycastResult} {k : ℕ} (h : Event.hit cb r k ∈ hitEventsOf cbs l) :
    ∃ p ∈ l, p.1 = k ∧ p.2.seg.castResult = some r := by
  unfold hitEventsOf at h
  obtain ⟨p, hp, hev⟩ := List.mem_flatMap.mp h
  refine ⟨p, hp, ?_⟩
  cases hres : p.2.seg.castResult with
  | none =>
      rw [hres] at hev
      cases hev
  | some r0 =>
      rw [hres] at hev
      obtain ⟨c, -, hc⟩ := List.mem_map.mp hev
      injection hc with h1 h2 h3
      exact ⟨h3, by rw [h2]⟩

theorem hit_not_mem_updEvents (cbs : List ℕ) (d : ℚ) (cb k : ℕ) (r : RaycastResult) :
    Event.hit cb r k ∉ cbs.map (fun c => Event.update c d) := by
  intro hm
  obtain ⟨c, -, hc⟩ := List.mem_map.mp hm
  cases hc

theorem tick_filterPartsHit (mag : V3 → ℚ) (inp : TickInput) (h : Hitbox) :
    (tick mag inp h).1.filterPartsHit = h.filterPartsHit := by
  by_cases hlive : (h.destroyed || !h.active) = true
  · rw [tick_dormant mag inp h hlive]
  · have hd : (h.destroyed || !h.active) = false := by simpa using hlive
    by_cases hp : castingPass h inp = true
    · rw [tick_pass mag inp h hd hp]
    · have hp0 : castingPass h inp = false := by simpa using hp
      rw [tick_nopass mag inp h hd hp0]

theorem tick_hitSet_mono (mag : V3 → ℚ) (inp : TickInput) (h : Hitbox)
    (o : ℕ) (ho : o ∈ h.hitSet) : o ∈ (tick mag inp h).1.hitSet := by
  by_cases hlive : (h.destroyed || !h.active) = true
  · rw [tick_dormant mag inp h hlive]
    exact ho
  · have hd : (h.destroyed || !h.active) = false := by simpa using hlive
    by_cases hp : castingPass h inp = true
    · rw [tick_pass mag inp h hd hp]
      exact List.mem_append_left _ ho
    · have hp0 : castingPass h inp = false := by simpa using hp
      rw [tick_nopass mag inp h hd hp0]
      exact ho

theorem tick_hit_recorded (mag : V3 → ℚ) (inp : TickInput) (h : Hitbox)
    (cb k : ℕ) (r : RaycastResult) (hev : Event.hit cb r k ∈ (tick mag inp h).2) :
    r.instanceId ∈ (tick mag inp h).1.hitSet := by
  by_cases hlive : (h.destroyed || !h.active) = true
  · rw [tick_dormant mag inp h hlive] at hev
    cases hev
  · have hd : (h.destroyed || !h.active) = false := by simpa using hlive
    by_cases hp : castingPass h inp = true
    · rw [tick_pass mag inp h hd hp] at hev ⊢
      rcases List.mem_append.mp hev with h1 | h1
      · exact absurd h1 (hit_not_mem_updEvents _ _ _ _ _)
      · obtain ⟨p, hpmem, hpk, hpres⟩ := mem_hitEventsOf h1
        show r.instanceId ∈
          h.hitSet ++ (segUpdates mag inp h).filterMap (fun p => p.2.rawHit)
        refine List.mem_append_right _ (List.mem_filterMap.mpr ⟨p, hpmem, ?_⟩)
        unfold segUpdates at hpmem
        obtain ⟨q, hqmem, hq⟩ := List.mem_map.mp hpmem
        rw [← hq] at hpres ⊢
        exact (segUpdate_castResult_some mag h.filterPartsHit h.hitSet
          (inp.segIn q.1) q.2 r hpres).1
    · have hp0 : castingPass h inp = false := by simpa using hp
      rw [tick_nopass mag inp h hd hp0] at hev
      exact absurd hev (hit_not_mem_updEvents _ _ _ _ _)

theorem tick_hit_fresh (mag : V3 → ℚ) (inp : TickInput) (h : Hitbox)
    (hfo : h.filterPartsHit = true) (cb k : ℕ) (r : RaycastResult)
    (hev : Event.hit cb r k ∈ (tick mag inp h).2) : r.instanceId ∉ h.hitSet := by
  by_cases hlive : (h.destroyed || !h.active) = true
  · rw [tick_dormant mag inp h hlive] at hev
    cases hev
  · have hd : (h.destroyed || !h.active) = false := by simpa using hlive
    by_cases hp : castingPass h inp = true
    · rw [tick_pass mag inp h hd hp] at hev
      rcases List.mem_append.mp hev with h1 | h1
      · exact absurd h1 (hit_not_mem_updEvents _ _ _ _ _)
      · obtain ⟨p, hpmem, hpk, hpres⟩ := mem_hitEventsOf h1
        unfold segUpdates at hpmem
        obtain ⟨q, hqmem, hq⟩ := List.mem_map.mp hpmem
        rw [← hq] at hpres
        exact (segUpdate_castResult_some mag h.filterPartsHit h.hitSet
          (inp.segIn q.1) q.2 r hpres).2 hfo
    · have hp0 : castingPass h inp = false := by simpa using hp
      rw [tick_nopass mag inp h hd hp0] at hev
      exact absurd hev (hit_not_mem_updEvents _ _ _ _ _)

theorem runTicks_cons (mag : V3 → ℚ) (h : Hitbox) (t : TickInput) (ts : List TickInput) :
    runTicks mag h (t :: ts)
      = ((runTicks mag (tick mag t h).1 ts).1,
         (tick mag t h).2 :: (runTicks mag (tick mag t h).1 ts).2) := rfl

theorem runTicks_filterPartsHit (mag : V3 → ℚ) (h : Hitbox) (ins : List TickInput) :
    (runTicks mag h ins).1.filterPartsHit = h.filterPartsHit := by
  induction ins generalizing h with
  | nil => rfl
  | cons t ts ih =>
      rw [runTicks_cons]
      show (runTicks mag (tick mag t h).1 ts).1.filterPartsHit = _
      rw [ih, tick_filterPartsHit]

theorem runTicks_hitSet_mono (mag : V3 → ℚ) (h : Hitbox) (ins : List TickInput)
    (o : ℕ) (ho : o ∈ h.hitSet) : o ∈ (runTicks mag h ins).1.hitSet := by
  induction ins generalizing h with
  | nil => exact ho
  | cons t ts ih =>
      rw [runTicks_cons]
      exact ih _ (tick_hitSet_mono mag t h o ho)

theorem runTicks_hit_recorded (mag : V3 → ℚ) (h : Hitbox) (ins : List TickInput)
    (evs : List Event) (cb k : ℕ) (r : RaycastResult)
    (hevs : evs ∈ (runTicks mag h ins).2) (hev : Event.hit cb r k ∈ evs) :
    r.instanceId ∈ (runTicks mag h ins).1.hitSet := by
  induction ins generalizing h with
  | nil => cases hevs
  | cons t ts ih =>
      rw [runTicks_cons] at hevs ⊢
      rcases List.mem_cons.mp hevs with h1 | h1
      · subst h1
        exact runTicks_hitSet_mono mag _ ts _ (tick_hit_recorded mag t h cb k r hev)
      · exact ih _ h1

theorem runTicks_no_hit_of_recorded (mag : V3 → ℚ) (h : Hitbox) (ins : List TickInput)
    (o : ℕ) (hfo : h.filterPartsHit = true) (ho : o ∈ h.hitSet) :
    ∀ evs ∈ (runTicks mag h ins).2, ∀ (cb k : ℕ) (r : RaycastResult),
      Event.hit cb r k ∈ evs → r.instanceId ≠ o := by
  induction ins generalizing h with
  | nil =>
      intro evs hevs
      cases hevs
  | cons t ts ih =>
      intro evs hevs cb k r hev heq
      rw [runTicks_cons] at hevs
      rcases List.mem_cons.mp hevs with h1 | h1
      · subst h1
        exact tick_hit_fresh mag t h hfo cb k r hev (by rw [heq]; exact ho)
      · exact ih (tick mag t h).1
          (by rw [tick_filterPartsHit]; exact hfo)
          (tick_hitSet_mono mag t h o ho) evs h1 cb k r hev heq

theorem runTicks_append (mag : V3 → ℚ) (h : Hitbox) (as bs : List TickInput) :
    runTicks mag h (as ++ bs)
      = ((runTicks mag (runTicks mag h as).1 bs).1,
         (runTicks mag h as).2 ++ (runTicks mag (runTicks mag h as).1 bs).2) := by
  induction as generalizing h with
  | nil => rfl
  | cons t ts ih =>
      rw [List.cons_append, runTicks_cons, ih, runTicks_cons]
      rfl

theorem runTicks_length (mag : V3 → ℚ) (h : Hitbox) (ins : List TickInput) :
    (runTicks mag h ins).2.length = ins.length := by
  induction ins generalizing h with
  | nil => rfl
  | cons t ts ih =>
      rw [runTicks_cons]
      show ((tick mag t h).2 :: _).length = _
      rw [List.length_cons, ih, List.length_cons]

/-- C2: with `FilterPartsHit = true` an object reported via `onHit` on tick
`i` of an activation window is never reported again on any later tick `j`
of that window; with the flag false the same object may be reported
repeatedly (concrete three-tick run below); and a tick maintains the
per-window hit set identically whatever the flag's value, so toggling the
flag mid-window takes effect immediately. -/
theorem filter_hit_parts :
    (∀ (mag : V3 → ℚ) (h : Hitbox) (ins : List TickInput) (i j : ℕ)
       (evI evJ : List Event) (cb cb' k k' : ℕ) (r r' : RaycastResult),
       h.filterPartsHit = true → i < j →
       (runTicks mag h ins).2[i]? = some evI →
       (runTicks mag h ins).2[j]? = some evJ →
       Event.hit cb r k ∈ evI → Event.hit cb' r' k' ∈ evJ →
       r'.instanceId ≠ r.instanceId) ∧
    ((runTicks magTaxi (demoHitbox false)
        [demoTick ⟨0, 0, 0⟩ .miss,
         demoTick ⟨1, 0, 0⟩ (.hit ⟨5, ⟨1, 0, 0⟩⟩),
         demoTick ⟨2, 0, 0⟩ (.hit ⟨5, ⟨2, 0, 0⟩⟩)]).2
      = [[],
         [Event.hit 1 ⟨5, ⟨1, 0, 0⟩⟩ 0],
         [Event.hit 1 ⟨5, ⟨2, 0, 0⟩⟩ 0]]) ∧
    (∀ (mag : V3 → ℚ) (inp : TickInput) (h : Hitbox) (b₁ b₂ : Bool),
       (tick mag inp { h with filterPartsHit := b₁ }).1.hitSet
         = (tick mag inp { h with filterPartsHit := b₂ }).1.hitSet) := by
  refine ⟨?_, ?_, ?_⟩
  case refine_2 =>
    norm_num [runTicks, tick, castingPass, minQ, demoHitbox, demoTick,
      ShapecastHitbox.new, segUpdates, hitEventsOf, segUpdate, Segment.fresh,
      rawOf, applyFilter, V3.sub, V3.zero, V3.smul, magTaxi]
  · intro mag h ins i j evI evJ cb cb' k k' r r' hfo hij hgi hgj hmi hmj
    obtain ⟨hjlen, -⟩ := List.getElem?_eq_some_iff.mp hgj
    rw [runTicks_length] at hjlen
    have hsplit : ins.take (i + 1) ++ ins.drop (i + 1) = ins :=
      List.take_append_drop _ _
    have htklen : (ins.take (i + 1)).length = i + 1 := by
      rw [List.length_take]
      omega
    have hAlen : (runTicks mag h (ins.take (i + 1))).2.length = i + 1 := by
      rw [runTicks_length, htklen]
    have key : (runTicks mag h ins).2
        = (runTicks mag h (ins.take (i + 1))).2
          ++ (runTicks mag (runTicks mag h (ins.take (i + 1))).1
                (ins.drop (i + 1))).2 := by
      conv_lhs => rw [← hsplit]
      rw [runTicks_append]
    rw [key] at hgi hgj
    have hgi' : (runTicks mag h (ins.take (i + 1))).2[i]? = some evI := by
      rw [List.getElem?_append_left (by omega)] at hgi
      exact hgi
    have hgj' :
        (runTicks mag (runTicks mag h (ins.take (i + 1))).1
          (ins.drop (i + 1))).2[j - (runTicks mag h (ins.take (i + 1))).2.length]?
          = some evJ := by
      rw [List.getElem?_append_right (by omega)] at hgj
      exact hgj
    have hmemI : evI ∈ (runTicks mag h (ins.take (i + 1))).2 :=
      List.getElem?_mem hgi'
    have hmemJ : evJ ∈ (runTicks mag (runTicks mag h (ins.take (i + 1))).1
        (ins.drop (i + 1))).2 := List.getElem?_mem hgj'
    have hrec : r.instanceId ∈ (runTicks mag h (ins.take (i + 1))).1.hitSet :=
      runTicks_hit_recorded mag h _ evI cb k r hmemI hmi
    have hflag : (runTicks mag h (ins.take (i + 1))).1.filterPartsHit = true := by
      rw [runTicks_filterPartsHit]
      exact hfo
    exact runTicks_no_hit_of_recorded mag _ _ r.instanceId hflag hrec
      evJ hmemJ cb' k' r' hmj
  · intro mag inp h b₁ b₂
    have hcp : castingPass { h with filterPartsHit := b₂ } inp
        = castingPass { h with filterPartsHit := b₁ } inp := rfl
    by_cases hlive : (h.destroyed || !h.active) = true
    · rw [tick_dormant mag inp { h with filterPartsHit := b₁ } hlive,
        tick_dormant mag inp { h with filterPartsHit := b₂ } hlive]
    · have hd : (h.destroyed || !h.active) = false := by simpa using hlive
      by_cases hp : castingPass { h with filterPartsHit := b₁ } inp = true
      · rw [tick_pass mag inp { h with filterPartsHit := b₁ } hd hp,
          tick_pass mag inp { h with filterPartsHit := b₂ } hd (hcp.trans hp)]
        show h.hitSet ++ (segUpdates mag inp { h with filterPartsHit := b₁ }).filterMap
            (fun p => p.2.rawHit)
          = h.hitSet ++ (segUpdates mag inp { h with filterPartsHit := b₂ }).filterMap
            (fun p => p.2.rawHit)
        unfold segUpdates
        show h.hitSet ++ (h.segments.map
            (fun p => (p.1, segUpdate mag b₁ h.hitSet (inp.segIn p.1) p.2))).filterMap
            (fun p => p.2.rawHit) = _
        congr 1
        induction h.segments with
        | nil => rfl
        | cons q l ih =>
            simp only [List.map_cons, List.filterMap_cons]
            rw [segUpdate_rawHit_flag_indep mag b₁ b₂ h.hitSet (inp.segIn q.1) q.2, ih]
      · have hp0 : castingPass { h with filterPartsHit := b₁ } inp = false := by
          simpa using hp
        rw [tick_nopass mag inp { h with filterPartsHit := b₁ } hd hp0,
          tick_nopass mag inp { h with filterPartsHit := b₂ } hd (hcp.trans hp0)]

theorem demo_true_run_events :
    (runTicks magTaxi (demoHitbox true)
        [demoTick ⟨0, 0, 0⟩ .miss,
         demoTick ⟨1, 0, 0⟩ (.hit ⟨5, ⟨1, 0, 0⟩⟩),
         demoTick ⟨2, 0, 0⟩ (.hit ⟨6, ⟨2, 0, 0⟩⟩)]).2
      = [[],
         [Event.hit 1 ⟨5, ⟨1, 0, 0⟩⟩ 0],
         [Event.hit 1 ⟨6, ⟨2, 0, 0⟩⟩ 0]] := by
  norm_num [runTicks, tick, castingPass, minQ, demoHitbox, demoTick,
    ShapecastHitbox.new, segUpdates, hitEventsOf, segUpdate, Segment.fresh,
    rawOf, applyFilter, V3.sub, V3.zero, V3.smul, magTaxi]

/-- Witness for C2: in a concrete flag-true run where obstacle 5 is hit on
tick 1 and obstacle 6 on tick 2, the theorem yields that the later report
cannot be the already-recorded object. -/
theorem filter_hit_parts_witness :
    (RaycastResult.mk 6 ⟨2, 0, 0⟩).instanceId
      ≠ (RaycastResult.mk 5 ⟨1, 0, 0⟩).instanceId :=
  filter_hit_parts.1 magTaxi (demoHitbox true)
    [demoTick ⟨0, 0, 0⟩ .miss,
     demoTick ⟨1, 0, 0⟩ (.hit ⟨5, ⟨1, 0, 0⟩⟩),
     demoTick ⟨2, 0, 0⟩ (.hit ⟨6, ⟨2, 0, 0⟩⟩)] 1 2
    [Event.hit 1 ⟨5, ⟨1, 0, 0⟩⟩ 0] [Event.hit 1 ⟨6, ⟨2, 0, 0⟩⟩ 0]
    1 1 0 0 ⟨5, ⟨1, 0, 0⟩⟩ ⟨6, ⟨2, 0, 0⟩⟩
    rfl (by decide)
    (by simp [demo_true_run_events])
    (by simp [demo_true_run_events])
    (by simp) (by simp)

theorem minQ_eq_min (a b : ℚ) : minQ a b = min a b := by
  rw [minQ, min_def]

theorem tick_active (mag : V3 → ℚ) (inp : TickInput) (h : Hitbox) :
    (tick mag inp h).1.active = h.active := by
  by_cases hlive : (h.destroyed || !h.active) = true
  · rw [tick_dormant mag inp h hlive]
  · have hd : (h.destroyed || !h.active) = false := by simpa using hlive
    by_cases hp : castingPass h inp = true
    · rw [tick_pass mag inp h hd hp]
    · have hp0 : castingPass h inp = false := by simpa using hp
      rw [tick_nopass mag inp h hd hp0]

theorem tick_destroyed (mag : V3 → ℚ) (inp : TickInput) (h : Hitbox) :
    (tick mag inp h).1.destroyed = h.destroyed := by
  by_cases hlive : (h.destroyed || !h.active) = true
  · rw [tick_dormant mag inp h hlive]
  · have hd : (h.destroyed || !h.active) = false := by simpa using hlive
    by_cases hp : castingPass h inp = true
    · rw [tick_pass mag inp h hd hp]
    · have hp0 : castingPass h inp = false := by simpa using hp
      rw [tick_nopass mag inp h hd hp0]

theorem tick_resolution (mag : V3 → ℚ) (inp : TickInput) (h : Hitbox) :
    (tick mag inp h).1.resolution = h.resolution := by
  by_cases hlive : (h.destroyed || !h.active) = true
  · rw [tick_dormant mag inp h hlive]
  · have hd : (h.destroyed || !h.active) = false := by simpa using hlive
    by_cases hp : castingPass h inp = true
    · rw [tick_pass mag inp h hd hp]
    · have hp0 : castingPass h inp = false := by simpa using hp
      rw [tick_nopass mag inp h hd hp0]

theorem tick_accTime (mag : V3 → ℚ) (inp : TickInput) (h : Hitbox)
    (hA : h.active = true) (hD : h.destroyed = false) :
    (tick mag inp h).1.accTime
      = if castingPass h inp = true then 0 else h.accTime + inp.delta := by
  have hd : (h.destroyed || !h.active) = false := by rw [hA, hD]; rfl
  by_cases hp : castingPass h inp = true
  · rw [tick_pass mag inp h hd hp, if_pos hp]
  · have hp0 : castingPass h inp = false := by simpa using hp
    rw [tick_nopass mag inp h hd hp0, if_neg hp]

theorem castingPass_le (h : Hitbox) (inp : TickInput)
    (hp : castingPass h inp = true) :
    1 / minQ h.resolution (1 / inp.delta) ≤ h.accTime + inp.delta := by
  have := hp
  simp only [castingPass, Bool.and_eq_true, decide_eq_true_eq] at this
  exact this.2

theorem passes_pairs (mag : V3 → ℚ) :
    ∀ (n : ℕ) (ins : List TickInput) (h : Hitbox),
      h.active = true → h.destroyed = false → h.resolution = 30 →
      h.accTime = 0 → ins.length = 2 * n → (∀ t ∈ ins, t.delta = 1/60) →
      passesInRun mag h ins = n := by
  intro n
  induction n with
  | zero =>
      intro ins h _ _ _ _ hlen _
      have hnil : ins = [] := List.eq_nil_of_length_eq_zero (by omega)
      subst hnil
      rfl
  | succ m ih =>
      intro ins h hA hD hres hacc hlen hdelta
      cases ins with
      | nil =>
          simp only [List.length_nil] at hlen
          omega
      | cons t1 ins1 =>
          cases ins1 with
          | nil =>
              simp only [List.length_cons, List.length_nil] at hlen
              omega
          | cons t2 rest =>
              simp only [List.length_cons] at hlen
              have hrest : rest.length = 2 * m := by omega
              have hd1 : t1.delta = 1/60 := hdelta t1 (by simp)
              have hd2 : t2.delta = 1/60 := hdelta t2 (by simp)
              have hdrest : ∀ t ∈ rest, t.delta = 1/60 := by
                intro t ht
                exact hdelta t (by simp [ht])
              have hp1 : castingPass h t1 = false := by
                simp only [castingPass, hA, hD, hres, hacc, hd1]
                norm_num [minQ]
              have hA1 : ((tick mag t1 h).1).active = true := by
                rw [tick_active, hA]
              have hD1 : ((tick mag t1 h).1).destroyed = false := by
                rw [tick_destroyed, hD]
              have hres1 : ((tick mag t1 h).1).resolution = 30 := by
                rw [tick_resolution, hres]
              have hacc1 : ((tick mag t1 h).1).accTime = 1/60 := by
                rw [tick_accTime mag t1 h hA hD, if_neg (by simp [hp1]), hacc, hd1]
                norm_num
              have hp2 : castingPass (tick mag t1 h).1 t2 = true := by
                simp only [castingPass, hA1, hD1, hres1, hacc1, hd2]
                norm_num [minQ]
              have hA2 : ((tick mag t2 (tick mag t1 h).1).1).active = true := by
                rw [tick_active, hA1]
              have hD2 : ((tick mag t2 (tick mag t1 h).1).1).destroyed = false := by
                rw [tick_destroyed, hD1]
              have hres2 : ((tick mag t2 (tick mag t1 h).1).1).resolution = 30 := by
                rw [tick_resolution, hres1]
              have hacc2 : ((tick mag t2 (tick mag t1 h).1).1).accTime = 0 := by
                rw [tick_accTime mag t2 (tick mag t1 h).1 hA1 hD1, if_pos hp2]
              show (if castingPass h t1 then 1 else 0)
                  + ((if castingPass (tick mag t1 h).1 t2 then 1 else 0)
                      + passesInRun mag (tick mag t2 (tick mag t1 h).1).1 rest)
                = m + 1
              rw [hp1, hp2, ih rest (tick mag t2 (tick mag t1 h).1).1
                hA2 hD2 hres2 hacc2 hrest hdrest]
              norm_num
              omega

/-- C3: a casting pass happens on a tick only when the accumulated time
including this tick's delta reaches `1 / min resolution currentFrameRate`
(the frame rate being the reciprocal of the delta); the accumulator is
reset to zero by a pass and otherwise grows by the raw delta, so the
accumulated value is exactly the time since the previous pass; and a
hitbox with resolution 30 driven by any 60-tick source at 60 ticks per
second performs exactly 30 casting passes in that second — in particular
at most 30. -/
theorem resolution_throttle :
    (∀ (h : Hitbox) (inp : TickInput),
       castingPass h inp = true →
       1 / min h.resolution (1 / inp.delta) ≤ h.accTime + inp.delta) ∧
    (∀ (mag : V3 → ℚ) (inp : TickInput) (h : Hitbox),
       h.active = true → h.destroyed = false →
       (tick mag inp h).1.accTime
         = if castingPass h inp = true then 0 else h.accTime + inp.delta) ∧
    (∀ (ins : List TickInput) (mag : V3 → ℚ),
       ins.length = 60 → (∀ t ∈ ins, t.delta = 1/60) →
       passesInRun mag { demoHitbox false with resolution := 30 } ins = 30) := by
  refine ⟨?_, ?_, ?_⟩
  · intro h inp hp
    rw [← minQ_eq_min]
    exact castingPass_le h inp hp
  · intro mag inp h hA hD
    exact tick_accTime mag inp h hA hD
  · intro ins mag hlen hdelta
    exact passes_pairs mag 30 ins _ rfl rfl rfl rfl (by omega) hdelta

/-- Witness for C3: the fresh demonstration hitbox passes on its very first
60 Hz tick at resolution 60 (throttle satisfied), the accumulator dynamics
hold there, and sixty 60 Hz ticks at resolution 30 yield exactly 30 casting
passes. -/
theorem resolution_throttle_witness :
    (1 / min (demoHitbox false).resolution
        (1 / (demoTick ⟨0, 0, 0⟩ .miss).delta)
      ≤ (demoHitbox false).accTime + (demoTick ⟨0, 0, 0⟩ .miss).delta) ∧
    ((tick magTaxi (demoTick ⟨0, 0, 0⟩ .miss) (demoHitbox false)).1.accTime
      = if castingPass (demoHitbox false) (demoTick ⟨0, 0, 0⟩ .miss) = true
        then 0 else (demoHitbox false).accTime + (demoTick ⟨0, 0, 0⟩ .miss).delta) ∧
    passesInRun magTaxi { demoHitbox false with resolution := 30 }
      (List.replicate 60 (demoTick ⟨0, 0, 0⟩ .miss)) = 30 :=
  ⟨resolution_throttle.1 (demoHitbox false) (demoTick ⟨0, 0, 0⟩ .miss)
     (by norm_num [castingPass, demoHitbox, demoTick, ShapecastHitbox.new, minQ]),
   resolution_throttle.2.1 magTaxi (demoTick ⟨0, 0, 0⟩ .miss) (demoHitbox false) rfl rfl,
   resolution_throttle.2.2 (List.replicate 60 (demoTick ⟨0, 0, 0⟩ .miss)) magTaxi
     (by simp)
     (fun t ht => by rw [List.eq_of_mem_replicate ht]; rfl)⟩

theorem magTaxi_ok : MagOk magTaxi := by
  intro v
  unfold magTaxi
  positivity

theorem segUpdate_some_nocast (mag : V3 → ℚ) (fo : Bool) (hs : List ℕ)
    (inp : SegInput) (s : Segment) (last : V3) (hpos : s.position = some last)
    (hz : inp.curPos.sub last = V3.zero ∧ s.lastDirection = V3.zero) :
    segUpdate mag fo hs inp s =
      ⟨{ s with distance := s.distance + mag (inp.curPos.sub last)
                position := some inp.curPos
                lastDirection :=
                  if inp.curPos.sub last = V3.zero then s.lastDirection
                  else V3.smul (1 / mag (inp.curPos.sub last)) (inp.curPos.sub last)
                castResult := none }, none, false⟩ := by
  unfold segUpdate
  rw [hpos]
  simp [hz]

theorem segUpdate_dist_pos (mag : V3 → ℚ) (fo : Bool) (hs : List ℕ)
    (inp : SegInput) (s : Segment) :
    (segUpdate mag fo hs inp s).seg.position = some inp.curPos ∧
    (segUpdate mag fo hs inp s).seg.distance
      = s.distance + (match s.position with
                      | none => 0
                      | some last => mag (inp.curPos.sub last)) := by
  cases hpos : s.position with
  | none =>
      rw [segUpdate_position_none mag fo hs inp s hpos]
      exact ⟨rfl, by simp⟩
  | some last =>
      by_cases hz : inp.curPos.sub last = V3.zero ∧ s.lastDirection = V3.zero
      · rw [segUpdate_some_nocast mag fo hs inp s last hpos hz]
        exact ⟨rfl, rfl⟩
      · rw [segUpdate_some_cast mag fo hs inp s last hpos hz]
        exact ⟨rfl, rfl⟩

theorem passPositions_cons (k : ℕ) (res acc : ℚ) (t : TickInput) (ts : List TickInput) :
    passPositions k res acc (t :: ts)
      = if 1 / minQ res (1 / t.delta) ≤ acc + t.delta
        then (t.segIn k).curPos :: passPositions k res 0 ts
        else passPositions k res (acc + t.delta) ts := rfl

theorem pathDistance_nil (mag : V3 → ℚ) (o : Option V3) :
    pathDistance mag o [] = 0 := by
  cases o <;> rfl

theorem pathDistance_cons_none (mag : V3 → ℚ) (p : V3) (ps : List V3) :
    pathDistance mag none (p :: ps) = pathDistance mag (some p) ps := rfl

theorem pathDistance_cons_some (mag : V3 → ℚ) (q p : V3) (ps : List V3) :
    pathDistance mag (some q) (p :: ps)
      = mag (p.sub q) + pathDistance mag (some p) ps := rfl

theorem runTicks_distance (mag : V3 → ℚ) :
    ∀ (ins : List TickInput) (h : Hitbox) (k : ℕ) (s : Segment),
      h.active = true → h.destroyed = false →
      h.segments.lookup k = some s →
      ∃ s', (runTicks mag h ins).1.segments.lookup k = some s' ∧
        s'.distance = s.distance
          + pathDistance mag s.position
              (passPositions k h.resolution h.accTime ins) := by
  intro ins
  induction ins with
  | nil =>
      intro h k s hA hD hs
      refine ⟨s, hs, ?_⟩
      simp [passPositions, pathDistance_nil]
  | cons t ts ih =>
      intro h k s hA hD hs
      have hlive : (h.destroyed || !h.active) = false := by rw [hA, hD]; rfl
      have hA1 : (tick mag t h).1.active = true := by rw [tick_active, hA]
      have hD1 : (tick mag t h).1.destroyed = false := by rw [tick_destroyed, hD]
      rw [show (runTicks mag h (t :: ts)).1 = (runTicks mag (tick mag t h).1 ts).1
          from rfl]
      by_cases hp : castingPass h t = true
      · have hpc : 1 / minQ h.resolution (1 / t.delta) ≤ h.accTime + t.delta :=
          castingPass_le h t hp
        have hseg1 : (tick mag t h).1.segments.lookup k
            = some (segUpdate mag h.filterPartsHit h.hitSet (t.segIn k) s).seg := by
          rw [tick_pass mag t h hlive hp]
          show ((segUpdates mag t h).map (fun p => (p.1, p.2.seg))).lookup k = _
          unfold segUpdates
          rw [lookup_tickSegs, hs]
          rfl
        obtain ⟨s', hlook, hdist⟩ := ih (tick mag t h).1 k _ hA1 hD1 hseg1
        refine ⟨s', hlook, ?_⟩
        rw [tick_resolution, tick_accTime mag t h hA hD, if_pos hp] at hdist
        rw [hdist, passPositions_cons, if_pos hpc]
        obtain ⟨hpos1, hdist1⟩ :=
          segUpdate_dist_pos mag h.filterPartsHit h.hitSet (t.segIn k) s
        rw [hdist1, hpos1]
        cases hsp : s.position with
        | none =>
            rw [pathDistance_cons_none]
            simp
        | some last =>
            rw [pathDistance_cons_some]
            simp [add_assoc]
      · have hp0 : castingPass h t = false := by simpa using hp
        have hnpc : ¬(1 / minQ h.resolution (1 / t.delta) ≤ h.accTime + t.delta) := by
          intro hPc
          apply hp
          simp only [castingPass, hA, hD, Bool.not_false, Bool.true_and,
            decide_eq_true_eq]
          exact hPc
        have hseg1 : (tick mag t h).1.segments.lookup k = some s := by
          rw [tick_nopass mag t h hlive hp0]
          exact hs
        obtain ⟨s', hlook, hdist⟩ := ih (tick mag t h).1 k s hA1 hD1 hseg1
        refine ⟨s', hlook, ?_⟩
        rw [tick_resolution, tick_accTime mag t h hA hD, if_neg hp] at hdist
        rw [hdist, passPositions_cons, if_neg hnpc]

theorem tick_distance_mono (mag : V3 → ℚ) (hm : MagOk mag) (inp : TickInput)
    (h : Hitbox) (k : ℕ) (s s' : Segment)
    (hs : h.segments.lookup k = some s)
    (hs' : (tick mag inp h).1.segments.lookup k = some s') :
    s.distance ≤ s'.distance := by
  by_cases hlive : (h.destroyed || !h.active) = true
  · rw [tick_dormant mag inp h hlive] at hs'
    have hs'' : List.lookup k h.segments = some s' := hs'
    rw [hs] at hs''
    injection hs'' with h1
    rw [h1]
  · have hd : (h.destroyed || !h.active) = false := by simpa using hlive
    by_cases hp : castingPass h inp = true
    · rw [tick_pass mag inp h hd hp] at hs'
      have hs'' : ((segUpdates mag inp h).map (fun p => (p.1, p.2.seg))).lookup k
          = some s' := hs'
      unfold segUpdates at hs''
      rw [lookup_tickSegs, hs] at hs''
      injection hs'' with h1
      rw [← h1, (segUpdate_dist_pos mag h.filterPartsHit h.hitSet (inp.segIn k) s).2]
      cases hsp : s.position with
      | none => simp
      | some last => exact le_add_of_nonneg_right (hm _)
    · have hp0 : castingPass h inp = false := by simpa using hp
      rw [tick_nopass mag inp h hd hp0] at hs'
      have hs'' : List.lookup k h.segments = some s' := hs'
      rw [hs] at hs''
      injection hs'' with h1
      rw [h1]

theorem lookup_resetSegs (l : List (ℕ × Segment)) (k : ℕ) :
    (l.map (fun p => (p.1, { p.2 with distance := 0, position := none
                                      castResult := none }))).lookup k
      = (l.lookup k).map (fun s => { s with distance := 0, position := none
                                            castResult := none }) := by
  induction l with
  | nil => rfl
  | cons p l ih =>
      by_cases hpj : k = p.1
      · subst hpj
        simp [List.lookup]
      · have hne : (k == p.1) = false := by simpa using hpj
        simp only [List.map_cons, List.lookup, hne]
        exact ih

theorem hitStart_inactive (t : Option ℚ) (h : Hitbox) (hA : h.active = false) :
    HitStart t h
      = ({ h with active := true
                  segments := h.segments.map (fun p =>
                    (p.1, { p.2 with distance := 0, position := none
                                     castResult := none }))
                  hitSet := [], accTime := 0, timerHandle := t },
          h.beforeStart.map Event.started) := by
  simp [HitStart, hA]

theorem hitStart_reset (h : Hitbox) (t : Option ℚ) (hA : h.active = false) (k : ℕ) :
    (HitStart t h).1.segments.lookup k
      = (h.segments.lookup k).map (fun s =>
          { s with distance := 0, position := none, castResult := none }) := by
  rw [hitStart_inactive t h hA]
  show (h.segments.map (fun p => (p.1, { p.2 with distance := 0, position := none
                                                  castResult := none }))).lookup k = _
  exact lookup_resetSegs h.segments k

/-- C1 (amended): while the hitbox stays Active, a segment's `Distance`
after a run of raw ticks equals its starting distance plus the path length
of its tracked point's positions observed at casting-pass ticks
(`passPositions` replays only the resolution throttle; the first
observation after a reset contributes nothing) — not the sum over every
raw tick, since throttled ticks are not observed; with any non-negative
magnitude the distance never decreases across a tick; and `HitStart` on an
Inactive hitbox resets every segment's `Distance` to 0. -/
theorem segment_distance_accumulation :
    (∀ (mag : V3 → ℚ) (ins : List TickInput) (h : Hitbox) (k : ℕ) (s : Segment),
       h.active = true → h.destroyed = false →
       h.segments.lookup k = some s →
       ∃ s', (runTicks mag h ins).1.segments.lookup k = some s' ∧
         s'.distance = s.distance
           + pathDistance mag s.position
               (passPositions k h.resolution h.accTime ins)) ∧
    (∀ (mag : V3 → ℚ), MagOk mag →
       ∀ (inp : TickInput) (h : Hitbox) (k : ℕ) (s s' : Segment),
         h.segments.lookup k = some s →
         (tick mag inp h).1.segments.lookup k = some s' →
         s.distance ≤ s'.distance) ∧
    (∀ (h : Hitbox) (t : Option ℚ) (k : ℕ) (s' : Segment),
       h.active = false →
       (HitStart t h).1.segments.lookup k = some s' → s'.distance = 0) :=
  ⟨fun mag ins h k s hA hD hs => runTicks_distance mag ins h k s hA hD hs,
   fun mag hm inp h k s s' hs hs' => tick_distance_mono mag hm inp h k s s' hs hs',
   fun h t k s' hA hs' => by
     rw [hitStart_reset h t hA k] at hs'
     obtain ⟨s0, -, rfl⟩ := Option.map_eq_some'.mp hs'
     rfl⟩

/-- C1 counterexample: the claim "Distance after N ticks equals the sum of
per-tick displacement magnitudes" fails under throttling.  With resolution
30 at 60 Hz only every other tick casts; a point that steps out to (1,0,0)
and back between two pass observations accumulates distance 0, while the
per-tick displacement magnitudes sum to 2 (all displacements axis-aligned,
so the taxicab and Euclidean magnitudes agree). -/
theorem distance_not_per_tick_sum :
    ((runTicks magTaxi { demoHitbox false with resolution := 30 }
        [demoTick ⟨0, 0, 0⟩ .miss, demoTick ⟨0, 0, 0⟩ .miss,
         demoTick ⟨1, 0, 0⟩ .miss, demoTick ⟨0, 0, 0⟩ .miss]).1.segments.lookup 0).map
        Segment.distance
      ≠ some (pathDistance magTaxi none
          [⟨0, 0, 0⟩, ⟨0, 0, 0⟩, ⟨1, 0, 0⟩, ⟨0, 0, 0⟩]) := by
  norm_num [runTicks, tick, castingPass, minQ, demoHitbox, demoTick,
    ShapecastHitbox.new, segUpdates, hitEventsOf, segUpdate, Segment.fresh,
    rawOf, applyFilter, V3.sub, V3.zero, V3.smul, magTaxi, pathDistance,
    List.lookup]

/-- Witness for C1 at concrete inputs: the accumulation identity on a
one-tick run from the demonstration hitbox, monotonicity across a concrete
casting tick, and the reset of a concrete segment by `HitStart`. -/
theorem segment_distance_accumulation_witness :
    (∃ s', (runTicks magTaxi (demoHitbox false)
        [demoTick ⟨1, 0, 0⟩ .miss]).1.segments.lookup 0 = some s' ∧
       s'.distance = (Segment.fresh {}).distance
         + pathDistance magTaxi (Segment.fresh {}).position
             (passPositions 0 (demoHitbox false).resolution
               (demoHitbox false).accTime [demoTick ⟨1, 0, 0⟩ .miss])) ∧
    ((Segment.fresh {}).distance
      ≤ ({ Segment.fresh {} with position := some ⟨1, 0, 0⟩ } : Segment).distance) ∧
    (({ Segment.fresh {} with distance := 0, position := none
                              castResult := none } : Segment).distance = 0) :=
  ⟨segment_distance_accumulation.1 magTaxi [demoTick ⟨1, 0, 0⟩ .miss]
     (demoHitbox false) 0 (Segment.fresh {}) rfl rfl rfl,
   segment_distance_accumulation.2.1 magTaxi magTaxi_ok
     (demoTick ⟨1, 0, 0⟩ .miss) (demoHitbox false) 0 (Segment.fresh {})
     { Segment.fresh {} with position := some ⟨1, 0, 0⟩ } rfl
     (by norm_num [tick, castingPass, minQ, demoHitbox, demoTick,
       ShapecastHitbox.new, segUpdates, hitEventsOf, segUpdate, Segment.fresh,
       rawOf, applyFilter, List.lookup]),
   segment_distance_accumulation.2.2
     { ShapecastHitbox.new with segments := [(0, Segment.fresh {})] } none 0
     { Segment.fresh {} with distance := 0, position := none, castResult := none }
     rfl rfl⟩
